import Mathlib

/-!
Verification development for the Vim keystroke-interpretation engine
(`src/actions/actions.ts`): key-sequence matching, the action registry
dispatch, count-repetition of movements, and the delete/yank operators.

Machine strings are modelled as Lean `String`/`List Char`; positions as
pairs of naturals; the external text buffer as a list of lines.
-/

namespace Vim

/-- Does the character list `l` start with `p`?  (JS `startsWith` on the
tail used by `indexOf`.) -/
def listStartsWith : List Char → List Char → Bool
  | _, [] => true
  | [], _ :: _ => false
  | c :: cs, d :: ds => c == d && listStartsWith cs ds

/-- JS `s.indexOf(sub) !== -1`: does `l` contain `p` as a contiguous
substring? -/
def listHasSubstr (l p : List Char) : Bool :=
  match l with
  | [] => listStartsWith [] p
  | _ :: cs => listStartsWith l p || listHasSubstr cs p

/-- JS `s.indexOf(sub) !== -1` on strings. -/
def strHasSubstr (s sub : String) : Bool :=
  listHasSubstr s.toList sub.toList

/-- `controlKeys` from `actions.ts`. -/
def controlKeys : List String :=
  ["ctrl", "alt", "shift", "esc", "delete", "left", "right", "up", "down"]

/-- `containsControlKey` from `compareKeypressSequence`: the token
contains some control-key name as a substring (JS `indexOf !== -1`). -/
def containsControlKey (s : String) : Bool :=
  controlKeys.any (fun ck => strHasSubstr s ck)

/-- `isSingleNumber` from `compareKeypressSequence`. -/
def isSingleNumber (s : String) : Bool :=
  s.length == 1 && strHasSubstr "1234567890" s

/-- One position of the `compareKeypressSequence` loop body (the loop
`continue`s on the listed wildcard cases and otherwise requires exact
equality, returning `false` early on mismatch). -/
def keypressTokenMatch (left right : String) : Bool :=
  if left == "<any>" then true
  else if right == "<any>" then true
  else if left == "<number>" && isSingleNumber right then true
  else if right == "<number>" && isSingleNumber left then true
  else if left == "<character>" && !containsControlKey right then true
  else if right == "<character>" && !containsControlKey left then true
  else left == right

/-- `compareKeypressSequence` from `actions.ts`: same length and every
position matches. -/
def compareKeypressSequence (one two : List String) : Bool :=
  one.length == two.length &&
    (List.zip one two).all (fun lr => keypressTokenMatch lr.1 lr.2)

/-- The per-position match rule exactly as the claim words it:
`<any>` matches anything; `<number>` matches a single decimal digit;
`<character>` matches any token that is not ONE OF the literally
enumerated control-key tokens; otherwise exact string equality. -/
def claimTokenMatch (left right : String) : Prop :=
  left = "<any>" ∨ right = "<any>" ∨
  (left = "<number>" ∧ isSingleNumber right = true) ∨
  (right = "<number>" ∧ isSingleNumber left = true) ∨
  (left = "<character>" ∧ right ∉ controlKeys) ∨
  (right = "<character>" ∧ left ∉ controlKeys) ∨
  left = right

instance (l r : String) : Decidable (claimTokenMatch l r) := by
  unfold claimTokenMatch; infer_instance

/-- The per-position match rule with the correction the code forces:
`<character>` rejects any token that CONTAINS a control-key name as a
substring (JS `indexOf`), not merely the enumerated tokens themselves. -/
def amendedTokenMatch (left right : String) : Prop :=
  left = "<any>" ∨ right = "<any>" ∨
  (left = "<number>" ∧ isSingleNumber right = true) ∨
  (right = "<number>" ∧ isSingleNumber left = true) ∨
  (left = "<character>" ∧ containsControlKey right = false) ∨
  (right = "<character>" ∧ containsControlKey left = false) ∨
  left = right

instance (l r : String) : Decidable (amendedTokenMatch l r) := by
  unfold amendedTokenMatch; infer_instance

/-- `ModeName` from `mode.ts` (the modes referenced by the actions). -/
inductive ModeName where
  | Normal
  | Insert
  | Visual
  | VisualBlock
  | VisualBlockInsertMode
  | VisualLine
  | SearchInProgressMode
  | Replace
deriving DecidableEq, Repr

/-- The dynamic class of a pending operator, standing in for the
TypeScript `instanceof` tests (`ChangeOperator`, `DeleteOperator`, ...). -/
inductive OperatorKind where
  | deleteOp
  | changeOp
  | yankOp
  | otherOp
deriving DecidableEq, Repr

/-- A (line, character) buffer coordinate (`Position` from
`motion/position.ts`). -/
structure Position where
  line : Nat
  character : Nat
deriving DecidableEq, Repr

/-- `RegisterMode` from `register/register.ts`. -/
inductive RegisterMode where
  | CharacterWise
  | LineWise
  | BlockWise
  | FigureItOutFromContext
deriving DecidableEq, Repr

/-- `IMovement` from `actions.ts`: the result of a more sophisticated
movement.  The optional TS fields `failed` and `registerMode` are
modelled with their TS defaults (`failed` absent reads falsy). -/
structure IMovement where
  start : Position
  stop : Position
  failed : Bool := false
  registerMode : Option RegisterMode := none
deriving DecidableEq, Repr

/-- A movement step returns either a plain `Position` or an `IMovement`
(the TS union type `Position | IMovement`). -/
inductive MovementResult where
  | pos (p : Position)
  | mov (m : IMovement)
deriving DecidableEq, Repr

/-- The slice of `RecordedState` consulted by key matching and by the
movement/operator code: the accumulated `count`, how many actions have
already run, the pending operator (with its dynamic class), and the
keys typed for the current action. -/
structure RecordedState where
  count : Nat
  actionsRunLength : Nat
  operator : Option OperatorKind
  actionKeys : List String
deriving DecidableEq, Repr

/-- The slice of `VimState` consulted by the actions under
verification. -/
structure VimState where
  currentMode : ModeName
  recordedState : RecordedState
  cursorPosition : Position
  cursorPositionJustBeforeAnythingHappened : Position
deriving DecidableEq, Repr

/-- The static descriptor of an action: its `modes`, trigger `keys`,
`mustBeFirstKey` flag, and whether the class extends `BaseOperator`. -/
structure ActionInfo where
  modes : List ModeName
  keys : List String
  mustBeFirstKey : Bool
  isBaseOperator : Bool
deriving DecidableEq, Repr

/-- `BaseAction.doesActionApply`: mode gate, exact-length key-sequence
comparison against the full key buffer, `mustBeFirstKey` gate, and the
no-stacked-operators gate. -/
def baseDoesActionApply (a : ActionInfo) (vimState : VimState)
    (keysPressed : List String) : Bool :=
  decide (vimState.currentMode ∈ a.modes) &&
  compareKeypressSequence a.keys keysPressed &&
  !(decide (vimState.recordedState.actionsRunLength > 0) && a.mustBeFirstKey) &&
  !(a.isBaseOperator && vimState.recordedState.operator.isSome)

/-- `BaseAction.couldActionApply`: as `baseDoesActionApply`, but only
the already-typed prefix of the action's key sequence is compared. -/
def baseCouldActionApply (a : ActionInfo) (vimState : VimState)
    (keysPressed : List String) : Bool :=
  decide (vimState.currentMode ∈ a.modes) &&
  compareKeypressSequence (a.keys.take keysPressed.length) keysPressed &&
  !(decide (vimState.recordedState.actionsRunLength > 0) && a.mustBeFirstKey) &&
  !(a.isBaseOperator && vimState.recordedState.operator.isSome)

/-- A registered action as seen by the dispatch loop: its applicability
predicates (each concrete action may override the base ones). -/
structure Action where
  does : VimState → List String → Bool
  could : VimState → List String → Bool

/-- `KeypressState` together with the matched-action case: the
three-valued result of `Actions.getRelevantAction`.  `matched` carries
the fresh instance, whose `keysPressed` field is set to a copy of
`recordedState.actionKeys`. -/
inductive ActionMatchOutcome where
  | matched (a : Action) (keysPressed : List String)
  | waitingOnKeys
  | noPossibleMatch

/-- The loop of `Actions.getRelevantAction`, threading the
`couldPotentiallyHaveMatch` flag. -/
def getRelevantActionLoop (vimState : VimState) (keysPressed : List String) :
    List Action → Bool → ActionMatchOutcome
  | [], could => if could then .waitingOnKeys else .noPossibleMatch
  | a :: rest, could =>
    if a.does vimState keysPressed then
      .matched a vimState.recordedState.actionKeys
    else
      getRelevantActionLoop vimState keysPressed rest
        (could || a.could vimState keysPressed)

/-- `Actions.getRelevantAction` from `actions.ts`, over a registry
`allActions` in registration order. -/
def getRelevantAction (allActions : List Action) (keysPressed : List String)
    (vimState : VimState) : ActionMatchOutcome :=
  getRelevantActionLoop vimState keysPressed allActions false


/-- Static descriptor of `CommandNumber` (`keys = ["<number>"]`,
modes Normal/Visual/VisualLine, a `BaseCommand`). -/
def CommandNumber.info : ActionInfo :=
  { modes := [.Normal, .Visual, .VisualLine]
    keys := ["<number>"]
    mustBeFirstKey := false
    isBaseOperator := false }

/-- `CommandNumber.doesActionApply`: the base gates plus
`(isZero && count > 0) || !isZero` where `isZero` is
`keysPressed[0] === "0"`. -/
def CommandNumber.doesActionApply (vimState : VimState)
    (keysPressed : List String) : Bool :=
  let isZero := keysPressed.headD "" == "0"
  baseDoesActionApply CommandNumber.info vimState keysPressed &&
    ((isZero && decide (vimState.recordedState.count > 0)) || !isZero)

/-- Static descriptor of `MoveLineBegin` (`keys = ["0"]`, the default
`BaseMovement` modes Normal/Visual/VisualLine/VisualBlock). -/
def MoveLineBegin.info : ActionInfo :=
  { modes := [.Normal, .Visual, .VisualLine, .VisualBlock]
    keys := ["0"]
    mustBeFirstKey := false
    isBaseOperator := false }

/-- `MoveLineBegin.doesActionApply`: the base gates plus
`recordedState.count === 0`. -/
def MoveLineBegin.doesActionApply (vimState : VimState)
    (keysPressed : List String) : Bool :=
  baseDoesActionApply MoveLineBegin.info vimState keysPressed &&
    (vimState.recordedState.count == 0)

/-- The count clamp at the top of `BaseMovement.execActionWithCount`:
`if (count < 1) count = 1; else if (count > 99999) count = 99999;`. -/
def clampCount (count : Nat) : Nat :=
  if count < 1 then 1 else if count > 99999 then 99999 else count

/-- The body of the `for` loop of `BaseMovement.execActionWithCount`,
recursing on the number of `remaining` iterations (iteration index
`i = count - remaining`; `firstIteration ↔ remaining = count`;
`lastIteration ↔ remaining = 1`).  `execAction` and
`execActionForOperator` are the single-step methods of the concrete
movement (with the unchanging `vimState` already applied); `hasOperator`
is `recordedState.operator` truthiness; `getRightThroughLineBreaks` is
the `Position` method used to thread the cursor between iterations. -/
def execLoop (execAction execActionForOperator : Position → MovementResult)
    (hasOperator : Bool) (getRightThroughLineBreaks : Position → Position)
    (count : Nat) : Nat → Position → MovementResult → MovementResult
  | 0, _, result => result
  | r + 1, position, result =>
    let firstIteration := r + 1 == count
    let lastIteration := r == 0
    let temporaryResult :=
      if hasOperator && lastIteration then execActionForOperator position
      else execAction position
    match temporaryResult with
    | .pos p =>
      execLoop execAction execActionForOperator hasOperator
        getRightThroughLineBreaks count r p (.pos p)
    | .mov m =>
      let base : IMovement :=
        match result with
        | .pos _ => { start := ⟨0, 0⟩, stop := ⟨0, 0⟩, failed := false }
        | .mov prev => prev
      let b1 : IMovement := { base with failed := base.failed || m.failed }
      let b2 : IMovement := if firstIteration then { b1 with start := m.start } else b1
      if lastIteration then
        execLoop execAction execActionForOperator hasOperator
          getRightThroughLineBreaks count r position (.mov { b2 with stop := m.stop })
      else
        execLoop execAction execActionForOperator hasOperator
          getRightThroughLineBreaks count r
          (getRightThroughLineBreaks m.stop) (.mov b2)

/-- `BaseMovement.execActionWithCount` from `actions.ts`: clamp the
count to [1, 99999], then iterate the single-step movement, threading
the position forward; the operator-targeting variant runs on the last
iteration when an operator is pending.  The accumulator starts as the
bogus `new Position(0, 0)`. -/
def execActionWithCount
    (execAction execActionForOperator : Position → MovementResult)
    (hasOperator : Bool) (getRightThroughLineBreaks : Position → Position)
    (position : Position) (count : Nat) : MovementResult :=
  let c := clampCount count
  execLoop execAction execActionForOperator hasOperator
    getRightThroughLineBreaks c c position (.pos ⟨0, 0⟩)

/-- `MoveToColumn.execActionWithCount` (the `|` movement), which
OVERRIDES the base implementation: `new Position(position.line,
Math.max(0, count - 1))` with no upper clamp.  (JS `count - 1` at
`count = 0` is `-1`, so `Math.max(0, count - 1)` agrees with Nat
truncated subtraction.) -/
def MoveToColumn.execActionWithCount (position : Position) (count : Nat) :
    MovementResult :=
  .pos ⟨position.line, count - 1⟩

/-- The position fed to iteration `i` of the count loop when every
iteration returns an `IMovement`: iteration 0 starts at `p`, and after
each non-last iteration the loop sets
`position = temporaryResult.stop.getRightThroughLineBreaks()` (non-last
iterations always run plain `execAction`, here `m`). -/
def iterPos (getRightThroughLineBreaks : Position → Position)
    (m : Position → IMovement) (p : Position) : Nat → Position
  | 0 => p
  | k + 1 => getRightThroughLineBreaks (m (iterPos getRightThroughLineBreaks m p k)).stop

/-- The `IMovement` produced by iteration `i` out of `n`: the last
iteration runs `lastStep` (the operator-targeting step when an operator
is pending, else the plain step), all earlier ones run the plain step
`m`. -/
def iterResult (getRightThroughLineBreaks : Position → Position)
    (m lastStep : Position → IMovement) (p : Position) (n i : Nat) : IMovement :=
  if i = n - 1 then lastStep (iterPos getRightThroughLineBreaks m p i)
  else m (iterPos getRightThroughLineBreaks m p i)

/-- The `stop` that the remaining `k` iterations of the loop will leave
behind, starting from position `q` (the last of them runs `lastStep`). -/
def tailStop (getRightThroughLineBreaks : Position → Position)
    (m lastStep : Position → IMovement) (q : Position) : Nat → Position
  | 0 => q
  | 1 => (lastStep q).stop
  | k + 2 =>
    tailStop getRightThroughLineBreaks m lastStep
      (getRightThroughLineBreaks (m q).stop) (k + 1)

/-- The disjunction of the `failed` flags of the remaining `k`
iterations of the loop, starting from position `q`. -/
def tailFailed (getRightThroughLineBreaks : Position → Position)
    (m lastStep : Position → IMovement) (q : Position) : Nat → Bool
  | 0 => false
  | 1 => (lastStep q).failed
  | k + 2 =>
    (m q).failed ||
      tailFailed getRightThroughLineBreaks m lastStep
        (getRightThroughLineBreaks (m q).stop) (k + 1)

/-- Modelled from the spec: the length of line `l` of the buffer
(`TextEditor.getLineAt(...).text.length`; absent lines read as empty). -/
def lineLen (buffer : List String) (l : Nat) : Nat :=
  (buffer.getD l "").length

/-- Modelled from the spec: `Position.getLineBegin` — column 0 of the
current line. -/
def getLineBegin (p : Position) : Position :=
  ⟨p.line, 0⟩

/-- Modelled from the spec: `Position.getLineEnd` — one past the last
character of the current line (character = line length). -/
def getLineEnd (buffer : List String) (p : Position) : Position :=
  ⟨p.line, lineLen buffer p.line⟩

/-- Modelled from the spec: `Position.getDown(0)` — down one line at
desired column 0, clamped to the document: on the last line the
position is unchanged. -/
def getDownCol0 (buffer : List String) (p : Position) : Position :=
  if p.line = buffer.length - 1 then p else ⟨p.line + 1, 0⟩

/-- Modelled from the spec:
`start.getPreviousLineBegin().getLineEnd()` — the end of the previous
line. -/
def getPrevLineEnd (buffer : List String) (p : Position) : Position :=
  ⟨p.line - 1, lineLen buffer (p.line - 1)⟩

/-- The range-adjustment prelude of `DeleteOperator.delete`
(`actions.ts` lines 827-854): LineWise snapping, inclusive end,
newline-selection advance, and the last-line LineWise retargeting of
`start`.  Returns the (start, end) actually deleted. -/
def DeleteOperator.adjustRange (buffer : List String) (start stop : Position)
    (registerMode : RegisterMode) : Position × Position :=
  let start := if registerMode = .LineWise then getLineBegin start else start
  let e := if registerMode = .LineWise then getLineEnd buffer stop else stop
  let e : Position := ⟨e.line, e.character + 1⟩
  let isOnLastLine := e.line = buffer.length - 1
  let e := if e.character = lineLen buffer e.line + 1 then getDownCol0 buffer e else e
  let start :=
    if isOnLastLine ∧ start.line ≠ 0 ∧ registerMode = .LineWise then
      getPrevLineEnd buffer start
    else start
  (start, e)

/-- The delete range computation exactly as the claim words it: in
particular, an end sitting one past the last character of its line
ALWAYS advances to the next line's start (no last-line exception). -/
def DeleteOperator.adjustRangeClaim (buffer : List String) (start stop : Position)
    (registerMode : RegisterMode) : Position × Position :=
  let start := if registerMode = .LineWise then getLineBegin start else start
  let e := if registerMode = .LineWise then getLineEnd buffer stop else stop
  let e : Position := ⟨e.line, e.character + 1⟩
  let isOnLastLine := e.line = buffer.length - 1
  let e := if e.character = lineLen buffer e.line + 1 then (⟨e.line + 1, 0⟩ : Position) else e
  let start :=
    if isOnLastLine ∧ start.line ≠ 0 ∧ registerMode = .LineWise then
      getPrevLineEnd buffer start
    else start
  (start, e)

/-- Modelled from the spec: `Position.compareTo(other) <= 0` —
lexicographic (line, character) order. -/
def posLeq (a b : Position) : Bool :=
  decide (a.line < b.line ∨ (a.line = b.line ∧ a.character ≤ b.character))

/-- The normalization at the top of `YankOperator.run`: put (start, end)
in ascending order, then make the end inclusive (`end.character + 1`). -/
def yankNormalize (start stop : Position) : Position × Position :=
  if posLeq start stop then (start, ⟨stop.line, stop.character + 1⟩)
  else (stop, ⟨start.line, start.character + 1⟩)

/-- The editor-level state touched by the yank operator: the external
text buffer, the Vim state, and the register written by `Register.put`
(modelled from the spec: the unnamed register receives the yanked
text). -/
structure EditorState where
  buffer : List String
  vim : VimState
  unnamedRegister : String
deriving DecidableEq, Repr

/-- Substring of `s` from character `a` (inclusive) to `b` (exclusive). -/
def strSlice (s : String) (a b : Nat) : String :=
  String.mk ((s.toList.drop a).take (b - a))

/-- Modelled from the spec: `document.getText` over a half-open
(start, end) range; lines are newline-separated. -/
def getText (buffer : List String) (st en : Position) : String :=
  if st.line = en.line then
    strSlice (buffer.getD st.line "") st.character en.character
  else
    String.intercalate "\n"
      (strSlice (buffer.getD st.line "") st.character (lineLen buffer st.line)
        :: ((buffer.drop (st.line + 1)).take (en.line - st.line - 1) ++
            [strSlice (buffer.getD en.line "") 0 en.character]))

/-- `YankOperator.run` from `actions.ts`: normalize the range, read the
text (appending the newline when a Visual selection took the
end-of-line slot), write the register, return to Normal mode, and
restore the cursor (pre-command position from Normal mode, selection
start otherwise).  The buffer is read but never written. -/
def YankOperator.run (s : EditorState) (start stop : Position) : EditorState :=
  let originalMode := s.vim.currentMode
  let pr := yankNormalize start stop
  let text := getText s.buffer pr.1 pr.2
  let text :=
    if s.vim.currentMode = .Visual ∧ pr.2.character = lineLen s.buffer pr.2.line + 1
    then text ++ "\n" else text
  { buffer := s.buffer
    unnamedRegister := text
    vim := { s.vim with
      currentMode := .Normal
      cursorPosition :=
        if originalMode = .Normal then
          s.vim.cursorPositionJustBeforeAnythingHappened
        else pr.1 } }

/-- The `Position` word/line primitives used by the `w`/`W` movements,
kept abstract (their implementations live outside the provided
sources): word scans, one-character right, line end, and the
first-word-of-line / line-end tests. -/
structure WordPrims where
  getWordRight : Position → Position
  getCurrentWordEnd : Position → Position
  getBigWordRight : Position → Position
  getCurrentBigWordEnd : Position → Position
  getRight : Position → Position
  getLineEnd : Position → Position
  isFirstWordOfLine : Position → Bool
  isLineEnd : Position → Bool

/-- Is the character under `p` a non-blank (out-of-range positions read
as blank)? -/
def nonBlankAt (buffer : List String) (p : Position) : Bool :=
  !((buffer.getD p.line "").toList.getD p.character ' ').isWhitespace

/-- `MoveWordBegin.execAction` (`w`): under a pending `ChangeOperator`
it returns one past the current word's end ("cw acts like ce"),
otherwise plain word-right. -/
def MoveWordBegin.execAction (P : WordPrims) (vimState : VimState)
    (position : Position) : Position :=
  if vimState.recordedState.operator = some .changeOp then
    P.getRight (P.getCurrentWordEnd position)
  else
    P.getWordRight position

/-- `MoveFullWordBegin.execAction` (`W`): the big-word analogue. -/
def MoveFullWordBegin.execAction (P : WordPrims) (vimState : VimState)
    (position : Position) : Position :=
  if vimState.recordedState.operator = some .changeOp then
    P.getRight (P.getCurrentBigWordEnd position)
  else
    P.getBigWordRight position

/-- `MoveWordBegin.execActionForOperator`: the `w`-under-operator
special cases from `actions.ts` lines 2293-2314. -/
def MoveWordBegin.execActionForOperator (P : WordPrims) (vimState : VimState)
    (position : Position) : Position :=
  let result := MoveWordBegin.execAction P vimState position
  if decide (result.line > position.line + 1) ||
      (decide (result.line = position.line + 1) && P.isFirstWordOfLine result) then
    P.getLineEnd position
  else if P.isLineEnd result then ⟨result.line, result.character + 1⟩
  else result

/-- The column indices at which `ch` occurs on line `l`, in
left-to-right order. -/
def lineIndicesOf (buffer : List String) (l : Nat) (ch : Char) : List Nat :=
  ((buffer.getD l "").toList.enum.filter (fun ic => ic.2 == ch)).map
    (fun ic => ic.1)

/-- The occurrences of `ch` on the cursor's line strictly right of the
cursor, nearest first. -/
def occurrencesAfter (buffer : List String) (p : Position) (ch : Char) : List Nat :=
  (lineIndicesOf buffer p.line ch).filter (fun i => decide (p.character < i))

/-- The occurrences of `ch` on the cursor's line strictly left of the
cursor, nearest first. -/
def occurrencesBefore (buffer : List String) (p : Position) (ch : Char) : List Nat :=
  ((lineIndicesOf buffer p.line ch).filter (fun i => decide (i < p.character))).reverse

/-- Modelled from the spec: `Position.findForwards(char, count)` — the
count-th occurrence of `char` on the current line strictly after the
cursor, or none if fewer than `count` occurrences exist before the end
of the line. -/
def findForwards (buffer : List String) (p : Position) (ch : Char)
    (count : Nat) : Option Position :=
  ((occurrencesAfter buffer p ch).get? (count - 1)).map (fun i => ⟨p.line, i⟩)

/-- Modelled from the spec: `Position.tilForwards` — one column short of
`findForwards`. -/
def tilForwards (buffer : List String) (p : Position) (ch : Char)
    (count : Nat) : Option Position :=
  (findForwards buffer p ch count).map (fun q => ⟨q.line, q.character - 1⟩)

/-- Modelled from the spec: `Position.findBackwards(char, count)` — the
count-th occurrence of `char` strictly before the cursor, scanning
leftwards. -/
def findBackwards (buffer : List String) (p : Position) (ch : Char)
    (count : Nat) : Option Position :=
  ((occurrencesBefore buffer p ch).get? (count - 1)).map (fun i => ⟨p.line, i⟩)

/-- Modelled from the spec: `Position.tilBackwards` — one column past
`findBackwards`. -/
def tilBackwards (buffer : List String) (p : Position) (ch : Char)
    (count : Nat) : Option Position :=
  (findBackwards buffer p ch count).map (fun q => ⟨q.line, q.character + 1⟩)

/-- Modelled from the spec: `Position.getRight` — one character right
(used by `f`/`t` when an operator is pending). -/
def getRight (p : Position) : Position :=
  ⟨p.line, p.character + 1⟩

/-- `MoveFindForward.execActionWithCount` (`f<character>`). -/
def MoveFindForward.execActionWithCount (buffer : List String)
    (vimState : VimState) (toFind : Char) (position : Position)
    (count : Nat) : MovementResult :=
  let count := if count = 0 then 1 else count
  match findForwards buffer position toFind count with
  | none => .mov { start := position, stop := position, failed := true }
  | some result =>
    .pos (if vimState.recordedState.operator.isSome then getRight result else result)

/-- `MoveFindBackward.execActionWithCount` (`F<character>`). -/
def MoveFindBackward.execActionWithCount (buffer : List String)
    (vimState : VimState) (toFind : Char) (position : Position)
    (count : Nat) : MovementResult :=
  let count := if count = 0 then 1 else count
  match findBackwards buffer position toFind count with
  | none => .mov { start := position, stop := position, failed := true }
  | some result => .pos result

/-- `MoveTilForward.execActionWithCount` (`t<character>`). -/
def MoveTilForward.execActionWithCount (buffer : List String)
    (vimState : VimState) (toFind : Char) (position : Position)
    (count : Nat) : MovementResult :=
  let count := if count = 0 then 1 else count
  match tilForwards buffer position toFind count with
  | none => .mov { start := position, stop := position, failed := true }
  | some result =>
    .pos (if vimState.recordedState.operator.isSome then getRight result else result)

/-- `MoveTilBackward.execActionWithCount` (`T<character>`). -/
def MoveTilBackward.execActionWithCount (buffer : List String)
    (vimState : VimState) (toFind : Char) (position : Position)
    (count : Nat) : MovementResult :=
  let count := if count = 0 then 1 else count
  match tilBackwards buffer position toFind count with
  | none => .mov { start := position, stop := position, failed := true }
  | some result => .pos result

end Vim

namespace Vim

theorem keypressTokenMatch_iff (l r : String) :
    keypressTokenMatch l r = true ↔ amendedTokenMatch l r := by
  unfold keypressTokenMatch amendedTokenMatch
  by_cases h1 : l = "<any>" <;>
  by_cases h2 : r = "<any>" <;>
  by_cases h3 : l = "<number>" ∧ isSingleNumber r = true <;>
  by_cases h4 : r = "<number>" ∧ isSingleNumber l = true <;>
  by_cases h5 : l = "<character>" ∧ containsControlKey r = false <;>
  by_cases h6 : r = "<character>" ∧ containsControlKey l = false <;>
  simp_all [Bool.and_eq_true, Bool.not_eq_true']

/-- Characterization of the dispatch loop for an arbitrary incoming
value of the `couldPotentiallyHaveMatch` flag. -/
theorem getRelevantActionLoop_spec (vimState : VimState)
    (keysPressed : List String) (actions : List Action) (could : Bool) :
    getRelevantActionLoop vimState keysPressed actions could =
      match actions.find? (fun a => a.does vimState keysPressed) with
      | some a => .matched a vimState.recordedState.actionKeys
      | none =>
        if could || actions.any (fun a => a.could vimState keysPressed) then
          .waitingOnKeys
        else
          .noPossibleMatch := by
  induction actions generalizing could with
  | nil => simp [getRelevantActionLoop]
  | cons a rest ih =>
    by_cases h : a.does vimState keysPressed = true
    · simp [getRelevantActionLoop, h, List.find?]
    · rw [Bool.not_eq_true] at h
      simp only [getRelevantActionLoop, h, Bool.false_eq_true, if_false,
        List.find?, List.any_cons, ih]
      cases List.find? (fun a => a.does vimState keysPressed) rest with
      | some b => rfl
      | none => simp [Bool.or_assoc]

end Vim

/-- C1: `Actions.getRelevantAction` computes a three-valued result in
one pass over the registered actions in registration order: if some
action's `doesActionApply` succeeds on the full key buffer, a fresh
instance of the first such action is returned (with `keysPressed` set
from `recordedState.actionKeys`); otherwise, if some action's
`couldActionApply` succeeds on the typed prefix, the result is
"waiting for more keys"; otherwise "no possible match". -/
theorem C1_getRelevantAction_spec (allActions : List Vim.Action)
    (keysPressed : List String) (vimState : Vim.VimState) :
    Vim.getRelevantAction allActions keysPressed vimState =
      match allActions.find? (fun a => a.does vimState keysPressed) with
      | some a => .matched a vimState.recordedState.actionKeys
      | none =>
        if allActions.any (fun a => a.could vimState keysPressed) then
          .waitingOnKeys
        else
          .noPossibleMatch := by
  rw [Vim.getRelevantAction, Vim.getRelevantActionLoop_spec]
  simp

/-- C2 (counterexample): the claim says `<character>` matches any token
that is not one of the literally enumerated control-key tokens.  The
token "cup" is not in `controlKeys`, yet `compareKeypressSequence`
rejects it against `<character>` (the code tests substring containment,
and "cup" contains "up"). -/
theorem C2_counterexample :
    Vim.compareKeypressSequence ["<character>"] ["cup"] = false ∧
    Vim.claimTokenMatch "<character>" "cup" ∧
    ["<character>"].length = ["cup"].length := by
  refine ⟨by decide, ?_, rfl⟩
  unfold Vim.claimTokenMatch
  decide

/-- C2 (amended): `compareKeypressSequence one two` returns `true` iff
the sequences have the same length and at every position the tokens
match, where `<any>` matches anything, `<number>` matches a single
decimal digit, `<character>` matches any token not containing a
control-key name as a substring, and otherwise the tokens must be
string-equal. -/
theorem C2_compareKeypressSequence_spec (one two : List String) :
    Vim.compareKeypressSequence one two = true ↔
      one.length = two.length ∧
      ∀ i : Nat, (h1 : i < one.length) → (h2 : i < two.length) →
        Vim.amendedTokenMatch (one.get ⟨i, h1⟩) (two.get ⟨i, h2⟩) := by
  unfold Vim.compareKeypressSequence
  rw [Bool.and_eq_true, beq_iff_eq, List.all_eq_true]
  constructor
  · rintro ⟨hlen, hall⟩
    refine ⟨hlen, fun i h1 h2 => ?_⟩
    rw [← Vim.keypressTokenMatch_iff]
    exact hall _ (by
      rw [List.mem_iff_getElem]
      exact ⟨i, by rw [List.length_zip, hlen, Nat.min_self]; exact h2,
             by rw [List.getElem_zip]⟩)
  · rintro ⟨hlen, hall⟩
    refine ⟨hlen, fun lr hmem => ?_⟩
    rw [List.mem_iff_getElem] at hmem
    obtain ⟨i, hi, heq⟩ := hmem
    rw [List.length_zip, hlen, Nat.min_self] at hi
    rw [Vim.keypressTokenMatch_iff, ← heq, List.getElem_zip]
    exact hall i (hlen ▸ hi) hi

/-- C2 (witness for the amended theorem): a concrete evaluation driving
the equivalence in both directions. -/
theorem C2_witness :
    Vim.compareKeypressSequence ["<number>", "x"] ["3", "x"] = true := by
  refine (C2_compareKeypressSequence_spec ["<number>", "x"] ["3", "x"]).mpr
    ⟨rfl, fun i h1 h2 => ?_⟩
  match i, h1, h2 with
  | 0, _, _ => show Vim.amendedTokenMatch "<number>" "3"
               unfold Vim.amendedTokenMatch; decide
  | 1, _, _ => show Vim.amendedTokenMatch "x" "x"
               unfold Vim.amendedTokenMatch; decide

/-- C10: in any mode where both actions are registered (Normal, Visual,
VisualLine), the single keypress "0" is never ambiguous:
`CommandNumber.doesActionApply` holds iff a nonzero count has already
accumulated, `MoveLineBegin.doesActionApply` holds iff the count is 0,
and exactly one of the two applies. -/
theorem C10_zero_key_unambiguous (vimState : Vim.VimState)
    (hmode : vimState.currentMode ∈
      [Vim.ModeName.Normal, Vim.ModeName.Visual, Vim.ModeName.VisualLine]) :
    (Vim.CommandNumber.doesActionApply vimState ["0"] = true ↔
      vimState.recordedState.count > 0) ∧
    (Vim.MoveLineBegin.doesActionApply vimState ["0"] = true ↔
      vimState.recordedState.count = 0) ∧
    (Vim.CommandNumber.doesActionApply vimState ["0"] ≠
      Vim.MoveLineBegin.doesActionApply vimState ["0"]) := by
  have hmode3 : vimState.currentMode = .Normal ∨ vimState.currentMode = .Visual ∨
      vimState.currentMode = .VisualLine := by
    simpa using hmode
  have hc1 : Vim.compareKeypressSequence ["<number>"] ["0"] = true := by decide
  have hc2 : Vim.compareKeypressSequence ["0"] ["0"] = true := by decide
  have hbase1 :
      Vim.baseDoesActionApply Vim.CommandNumber.info vimState ["0"] = true := by
    rcases hmode3 with h | h | h <;>
      simp [Vim.baseDoesActionApply, Vim.CommandNumber.info, h, hc1]
  have hbase2 :
      Vim.baseDoesActionApply Vim.MoveLineBegin.info vimState ["0"] = true := by
    rcases hmode3 with h | h | h <;>
      simp [Vim.baseDoesActionApply, Vim.MoveLineBegin.info, h, hc2]
  unfold Vim.CommandNumber.doesActionApply Vim.MoveLineBegin.doesActionApply
  rw [hbase1, hbase2]
  simp only [Bool.true_and, List.headD]
  refine ⟨?_, ?_, ?_⟩ <;>
    rcases Nat.eq_zero_or_pos vimState.recordedState.count with h | h <;>
    simp [h, Nat.pos_iff_ne_zero] <;> omega

/-- C10 (witness): a concrete Normal-mode state with count 0, where
`MoveLineBegin` applies and `CommandNumber` does not. -/
theorem C10_witness :
    (Vim.CommandNumber.doesActionApply
        ⟨.Normal, ⟨0, 0, none, ["0"]⟩, ⟨0, 0⟩, ⟨0, 0⟩⟩ ["0"] = true ↔
      (0 : Nat) > 0) ∧
    (Vim.MoveLineBegin.doesActionApply
        ⟨.Normal, ⟨0, 0, none, ["0"]⟩, ⟨0, 0⟩, ⟨0, 0⟩⟩ ["0"] = true ↔
      (0 : Nat) = 0) := by
  have h := C10_zero_key_unambiguous
    ⟨.Normal, ⟨0, 0, none, ["0"]⟩, ⟨0, 0⟩, ⟨0, 0⟩⟩ (by decide)
  exact ⟨h.1, h.2.1⟩

/-- C4 (counterexample): `MoveToColumn` (`|`) overrides
`execActionWithCount` without the upper clamp, so a count of 100000
lands on column 99999 while a count of 99999 lands on column 99998. -/
theorem C4_counterexample :
    Vim.MoveToColumn.execActionWithCount ⟨0, 0⟩ 100000 ≠
      Vim.MoveToColumn.execActionWithCount ⟨0, 0⟩ 99999 := by
  decide

/-- C4 (amended): for movements that use the inherited
`BaseMovement.execActionWithCount` (arbitrary single-step behavior),
count 0 behaves as count 1 and any count above 99999 behaves as exactly
99999, because the count is clamped to [1, 99999] before iteration.
Movements that override `execActionWithCount` (such as `|`) escape the
clamp. -/
theorem C4_base_execActionWithCount_clamps
    (execAction execActionForOperator : Vim.Position → Vim.MovementResult)
    (hasOperator : Bool) (getRightThroughLineBreaks : Vim.Position → Vim.Position)
    (position : Vim.Position) :
    Vim.execActionWithCount execAction execActionForOperator hasOperator
        getRightThroughLineBreaks position 0 =
      Vim.execActionWithCount execAction execActionForOperator hasOperator
        getRightThroughLineBreaks position 1 ∧
    ∀ count : Nat, count > 99999 →
      Vim.execActionWithCount execAction execActionForOperator hasOperator
          getRightThroughLineBreaks position count =
        Vim.execActionWithCount execAction execActionForOperator hasOperator
          getRightThroughLineBreaks position 99999 := by
  constructor
  · rfl
  · intro count hcount
    have h1 : Vim.clampCount count = 99999 := by
      unfold Vim.clampCount
      rw [if_neg (by omega), if_pos (by omega)]
    have h2 : Vim.clampCount 99999 = 99999 := by decide
    simp [Vim.execActionWithCount, h1, h2]

/-- C4 (witness): the amended theorem applied at count 100000. -/
theorem C4_witness :
    (100000 : Nat) > 99999 ∧
    Vim.execActionWithCount (fun _ => .pos ⟨0, 0⟩) (fun _ => .pos ⟨0, 0⟩)
        false id ⟨0, 0⟩ 100000 =
      Vim.execActionWithCount (fun _ => .pos ⟨0, 0⟩) (fun _ => .pos ⟨0, 0⟩)
        false id ⟨0, 0⟩ 99999 :=
  ⟨by decide,
   (C4_base_execActionWithCount_clamps (fun _ => .pos ⟨0, 0⟩)
      (fun _ => .pos ⟨0, 0⟩) false id ⟨0, 0⟩).2 100000 (by decide)⟩


namespace Vim

/-- Once past the first iteration (accumulator already an `IMovement`),
the remaining iterations of the count loop keep `start` and
`registerMode`, OR every iteration's `failed` flag into the
accumulator, and overwrite `stop` with the last iteration's stop. -/
theorem execLoop_mov_spec (grtlb : Position → Position)
    (m mo : Position → IMovement) (hasOp : Bool) (count : Nat) :
    ∀ (r : Nat) (q : Position) (acc : IMovement), r + 1 < count →
      execLoop (fun x => .mov (m x)) (fun x => .mov (mo x)) hasOp grtlb count
          (r + 1) q (.mov acc) =
        .mov { start := acc.start
               stop := tailStop grtlb m (if hasOp then mo else m) q (r + 1)
               failed := acc.failed ||
                 tailFailed grtlb m (if hasOp then mo else m) q (r + 1)
               registerMode := acc.registerMode } := by
  intro r
  induction r with
  | zero =>
    intro q acc hlt
    have hfirst : ((0 : Nat) + 1 == count) = false := by
      simp only [beq_eq_false_iff_ne, ne_eq]
      omega
    cases hasOp <;>
      simp [execLoop, hfirst, tailStop, tailFailed]
  | succ r ih =>
    intro q acc hlt
    have hfirst : (r + 1 + 1 == count) = false := by
      simp only [beq_eq_false_iff_ne, ne_eq]
      omega
    have hlast : (r + 1 == 0) = false := by simp
    have hrec := ih (grtlb (m q).stop)
      { acc with failed := acc.failed || (m q).failed } (by omega)
    simp only [execLoop, hfirst, hlast, Bool.and_false, Bool.false_eq_true,
      if_false, cond_false] at hrec ⊢
    rw [hrec]
    simp [tailStop, tailFailed, Bool.or_assoc]

/-- The `stop` left behind by `k + 1` trailing iterations starting at
the position of iteration `j` is the last iteration's stop. -/
theorem tailStop_spec (grtlb : Position → Position)
    (m lastStep : Position → IMovement) (p : Position) :
    ∀ (k j : Nat),
      tailStop grtlb m lastStep (iterPos grtlb m p j) (k + 1) =
        (lastStep (iterPos grtlb m p (j + k))).stop := by
  intro k
  induction k with
  | zero => intro j; simp [tailStop]
  | succ k ih =>
    intro j
    show tailStop grtlb m lastStep (grtlb (m (iterPos grtlb m p j)).stop) (k + 1) = _
    have hstep : grtlb (m (iterPos grtlb m p j)).stop = iterPos grtlb m p (j + 1) := rfl
    rw [hstep, ih (j + 1)]
    have heq : j + 1 + k = j + (k + 1) := by omega
    rw [heq]

/-- The OR of the `failed` flags of `k + 1` trailing iterations,
phrased through `iterResult` when those are iterations `j .. j + k` of
`n` and the very last one (`j + k = n - 1`) runs `lastStep`. -/
theorem tailFailed_spec (grtlb : Position → Position)
    (m lastStep : Position → IMovement) (p : Position) (n : Nat) :
    ∀ (k j : Nat), j + k = n - 1 →
      tailFailed grtlb m lastStep (iterPos grtlb m p j) (k + 1) =
        (List.range (k + 1)).any
          (fun t => (iterResult grtlb m lastStep p n (j + t)).failed) := by
  intro k
  induction k with
  | zero =>
    intro j hj
    have hj0 : j = n - 1 := by omega
    show (lastStep (iterPos grtlb m p j)).failed = _
    rw [show List.range 1 = [0] from rfl]
    simp [iterResult, hj0]
  | succ k ih =>
    intro j hj
    have hj1 : j + 1 + k = n - 1 := by omega
    have hjne : ¬(j = n - 1) := by omega
    show ((m (iterPos grtlb m p j)).failed ||
        tailFailed grtlb m lastStep (grtlb (m (iterPos grtlb m p j)).stop) (k + 1)) = _
    have hstep : grtlb (m (iterPos grtlb m p j)).stop = iterPos grtlb m p (j + 1) := rfl
    rw [hstep, ih (j + 1) hj1]
    conv_rhs => rw [List.range_succ_eq_map, List.any_cons, List.any_map]
    have harr : ∀ t : Nat, j + 1 + t = j + (t + 1) := by omega
    simp only [harr, Function.comp_def, Nat.succ_eq_add_one, Nat.add_zero]
    rw [show iterResult grtlb m lastStep p n j = m (iterPos grtlb m p j) from by
      unfold iterResult; rw [if_neg hjne]]

end Vim

/-- C5: when every iteration of a movement run with count `n > 1`
produces an `IMovement` (Range) result, the overall result's `start` is
the first iteration's start, its `stop` is the last iteration's stop,
and its `failed` flag is true iff some iteration's result had
`failed = true` (iterations thread positions via
`getRightThroughLineBreaks`; the last iteration runs the
operator-targeting step when an operator is pending). -/
theorem C5_multi_iteration_composition (grtlb : Vim.Position → Vim.Position)
    (m mo : Vim.Position → Vim.IMovement) (hasOp : Bool) (p : Vim.Position)
    (n : Nat) (h2 : 2 ≤ n) (h9 : n ≤ 99999) :
    Vim.execActionWithCount (fun q => .mov (m q)) (fun q => .mov (mo q))
        hasOp grtlb p n =
      .mov { start := (Vim.iterResult grtlb m (if hasOp then mo else m) p n 0).start
             stop := (Vim.iterResult grtlb m (if hasOp then mo else m) p n (n - 1)).stop
             failed := (List.range n).any
               (fun i => (Vim.iterResult grtlb m (if hasOp then mo else m) p n i).failed)
             registerMode := none } := by
  obtain ⟨k, rfl⟩ : ∃ k, n = k + 2 := ⟨n - 2, by omega⟩
  have hclamp : Vim.clampCount (k + 2) = k + 2 := by
    unfold Vim.clampCount
    rw [if_neg (by omega), if_neg (by omega)]
  rw [Vim.execActionWithCount]
  simp only [hclamp]
  have hstep1 : Vim.execLoop (fun q => .mov (m q)) (fun q => .mov (mo q))
      hasOp grtlb (k + 2) (k + 2) p (.pos ⟨0, 0⟩) =
    Vim.execLoop (fun q => .mov (m q)) (fun q => .mov (mo q)) hasOp grtlb
      (k + 2) (k + 1) (grtlb (m p).stop)
      (.mov { start := (m p).start, stop := ⟨0, 0⟩,
              failed := false || (m p).failed, registerMode := none }) := by
    have hf : (k + 1 + 1 == k + 2) = true := by simp
    have hl : ((k + 1 : Nat) == 0) = false := rfl
    simp [Vim.execLoop, hf, hl]
  rw [hstep1, Vim.execLoop_mov_spec grtlb m mo hasOp (k + 2) k
    (grtlb (m p).stop) _ (by omega)]
  have hq : grtlb (m p).stop = Vim.iterPos grtlb m p 1 := rfl
  rw [hq, Vim.tailStop_spec grtlb m (if hasOp then mo else m) p k 1,
    Vim.tailFailed_spec grtlb m (if hasOp then mo else m) p (k + 2) k 1 (by omega)]
  have h0 : Vim.iterResult grtlb m (if hasOp then mo else m) p (k + 2) 0 =
      m p := by
    unfold Vim.iterResult
    rw [if_neg (by omega)]
    rfl
  have hred : (k + 2 - 1 : Nat) = k + 1 := rfl
  have hlastidx : Vim.iterResult grtlb m (if hasOp then mo else m) p (k + 2) (k + 1) =
      (if hasOp then mo else m) (Vim.iterPos grtlb m p (k + 1)) := by
    unfold Vim.iterResult
    rw [if_pos hred.symm]
  conv_rhs => rw [List.range_succ_eq_map, List.any_cons, List.any_map]
  have h1k : (1 + k : Nat) = k + 1 := by omega
  have harr : ∀ t : Nat, 1 + t = t + 1 := by omega
  simp only [hred, hlastidx, h0, h1k, harr, Function.comp_def,
    Nat.succ_eq_add_one, Nat.add_zero, Bool.false_or]

/-- C5 (witness): a concrete two-iteration run, each iteration moving
the stop one column right of the threaded position. -/
theorem C5_witness :
    Vim.execActionWithCount
        (fun q => .mov { start := q, stop := ⟨q.line, q.character + 1⟩ })
        (fun q => .mov { start := q, stop := q }) false (fun q => q)
        ⟨0, 0⟩ 2 =
      .mov { start := ⟨0, 0⟩, stop := ⟨0, 2⟩, failed := false,
             registerMode := none } := by
  rw [C5_multi_iteration_composition (fun q => q)
    (fun q => { start := q, stop := ⟨q.line, q.character + 1⟩ })
    (fun q => { start := q, stop := q }) false ⟨0, 0⟩ 2 (by decide) (by decide)]
  rfl

/-- C3 (counterexample): on a one-line buffer, a character-wise delete
whose inclusive end takes the end-of-line slot does NOT advance to "the
next line's start" (there is no next line; `getDown` leaves the
position unchanged), contradicting the claim's unconditional advance. -/
theorem C3_counterexample :
    Vim.DeleteOperator.adjustRange [""] ⟨0, 0⟩ ⟨0, 0⟩ .CharacterWise ≠
      Vim.DeleteOperator.adjustRangeClaim [""] ⟨0, 0⟩ ⟨0, 0⟩ .CharacterWise := by
  decide

/-- C3 (amended): the delete range computation, with the advance
conditional on not being on the document's last line: LineWise snaps
start to line begin and end to line end; end becomes inclusive
(`character + 1`); an end sitting one past the last character of its
line advances to the next line's start UNLESS it is on the last line
(then it stays); and when the inclusive end was computed on the final
line, start's line is nonzero and the mode is LineWise, start is
retargeted to the end of the previous line. -/
theorem C3_delete_range_amended (buffer : List String)
    (start stop : Vim.Position) (registerMode : Vim.RegisterMode) :
    Vim.DeleteOperator.adjustRange buffer start stop registerMode =
      (let s1 := if registerMode = .LineWise then (⟨start.line, 0⟩ : Vim.Position) else start
       let e1 := if registerMode = .LineWise
                 then (⟨stop.line, Vim.lineLen buffer stop.line⟩ : Vim.Position) else stop
       let e2 : Vim.Position := ⟨e1.line, e1.character + 1⟩
       let onLastLine := e2.line = buffer.length - 1
       let e3 := if e2.character = Vim.lineLen buffer e2.line + 1 then
                   (if e2.line = buffer.length - 1 then e2
                    else (⟨e2.line + 1, 0⟩ : Vim.Position))
                 else e2
       let s2 := if onLastLine ∧ s1.line ≠ 0 ∧ registerMode = .LineWise then
                   (⟨s1.line - 1, Vim.lineLen buffer (s1.line - 1)⟩ : Vim.Position)
                 else s1
       (s2, e3)) := rfl

/-- C8: the yank operator never changes the buffer; it normalizes
(start, end) to ascending order and makes the end inclusive by one
character; and the resulting cursor is the pre-command cursor position
from Normal mode and the normalized selection start otherwise (in
particular from the Visual modes). -/
theorem C8_yank_spec (s : Vim.EditorState) (start stop : Vim.Position) :
    (Vim.YankOperator.run s start stop).buffer = s.buffer ∧
    (Vim.yankNormalize start stop).1 =
      (if Vim.posLeq start stop then start else stop) ∧
    (Vim.yankNormalize start stop).2 =
      (let m := if Vim.posLeq start stop then stop else start
       (⟨m.line, m.character + 1⟩ : Vim.Position)) ∧
    (Vim.YankOperator.run s start stop).vim.cursorPosition =
      (if s.vim.currentMode = .Normal then
        s.vim.cursorPositionJustBeforeAnythingHappened
       else (Vim.yankNormalize start stop).1) := by
  refine ⟨rfl, ?_, ?_, ?_⟩
  · unfold Vim.yankNormalize
    cases h : Vim.posLeq start stop <;> simp [h]
  · unfold Vim.yankNormalize
    cases h : Vim.posLeq start stop <;> simp [h]
  · by_cases hm : s.vim.currentMode = .Normal <;>
      simp [Vim.YankOperator.run, hm]

/-- C6: with a pending `ChangeOperator` and the cursor on a non-blank
character, `w` (and `W`) return one past the current (big) word's end
— change-to-word-end, like `ce` — instead of the word-right target. -/
theorem C6_change_word_is_change_to_word_end (P : Vim.WordPrims)
    (vimState : Vim.VimState) (buffer : List String) (position : Vim.Position)
    (hop : vimState.recordedState.operator = some .changeOp)
    (hnb : Vim.nonBlankAt buffer position = true) :
    Vim.MoveWordBegin.execAction P vimState position =
      P.getRight (P.getCurrentWordEnd position) ∧
    Vim.MoveFullWordBegin.execAction P vimState position =
      P.getRight (P.getCurrentBigWordEnd position) := by
  unfold Vim.MoveWordBegin.execAction Vim.MoveFullWordBegin.execAction
  rw [if_pos hop, if_pos hop]
  exact ⟨rfl, rfl⟩

/-- C6 (witness): a concrete change-pending state on a non-blank
character. -/
theorem C6_witness :
    Vim.nonBlankAt ["a"] ⟨0, 0⟩ = true ∧
    Vim.MoveWordBegin.execAction
        ⟨id, id, id, id, Vim.getRight, id, fun _ => false, fun _ => false⟩
        ⟨.Normal, ⟨0, 0, some .changeOp, []⟩, ⟨0, 0⟩, ⟨0, 0⟩⟩ ⟨0, 0⟩ =
      Vim.getRight (id (⟨0, 0⟩ : Vim.Position)) := by
  refine ⟨by decide, ?_⟩
  exact (C6_change_word_is_change_to_word_end
    ⟨id, id, id, id, Vim.getRight, id, fun _ => false, fun _ => false⟩
    ⟨.Normal, ⟨0, 0, some .changeOp, []⟩, ⟨0, 0⟩, ⟨0, 0⟩⟩ ["a"] ⟨0, 0⟩
    rfl (by decide)).1

/-- C7: `w` as an operator target applies two rules in order to the
bare `execAction` result: if it crossed more than one line down, or
landed exactly one line down on that line's first word, the motion
returns the end of the current line instead; otherwise, if it landed
exactly at end-of-line, the result is extended right by one character;
otherwise the bare result stands. -/
theorem C7_word_under_operator (P : Vim.WordPrims) (vimState : Vim.VimState)
    (position : Vim.Position) :
    Vim.MoveWordBegin.execActionForOperator P vimState position =
      (let result := Vim.MoveWordBegin.execAction P vimState position
       if result.line > position.line + 1 ∨
          (result.line = position.line + 1 ∧ P.isFirstWordOfLine result = true) then
         P.getLineEnd position
       else if P.isLineEnd result = true then ⟨result.line, result.character + 1⟩
       else result) := by
  unfold Vim.MoveWordBegin.execActionForOperator
  simp only [Bool.or_eq_true, Bool.and_eq_true, decide_eq_true_eq]

/-- C9: each of the four find/till character motions returns a failed
Range anchored at the original cursor position whenever the target
character occurs fewer than the required number of times on the current
line in that motion's own scan direction: forward deficiency fails `f`
and `t`, backward deficiency fails `F` and `T`. -/
theorem C9_find_till_failure (buffer : List String) (vimState : Vim.VimState)
    (toFind : Char) (position : Vim.Position) (count : Nat) :
    ((Vim.occurrencesAfter buffer position toFind).length <
        (if count = 0 then 1 else count) →
      Vim.MoveFindForward.execActionWithCount buffer vimState toFind position count =
        .mov { start := position, stop := position, failed := true } ∧
      Vim.MoveTilForward.execActionWithCount buffer vimState toFind position count =
        .mov { start := position, stop := position, failed := true }) ∧
    ((Vim.occurrencesBefore buffer position toFind).length <
        (if count = 0 then 1 else count) →
      Vim.MoveFindBackward.execActionWithCount buffer vimState toFind position count =
        .mov { start := position, stop := position, failed := true } ∧
      Vim.MoveTilBackward.execActionWithCount buffer vimState toFind position count =
        .mov { start := position, stop := position, failed := true }) := by
  have hone : 1 ≤ (if count = 0 then 1 else count) := by split <;> omega
  constructor
  · intro hf
    have hfn : Vim.findForwards buffer position toFind
        (if count = 0 then 1 else count) = none := by
      unfold Vim.findForwards
      rw [List.get?_eq_none.mpr (by omega)]
      rfl
    refine ⟨?_, ?_⟩ <;>
      simp [Vim.MoveFindForward.execActionWithCount,
        Vim.MoveTilForward.execActionWithCount, Vim.tilForwards, hfn]
  · intro hb
    have hbn : Vim.findBackwards buffer position toFind
        (if count = 0 then 1 else count) = none := by
      unfold Vim.findBackwards
      rw [List.get?_eq_none.mpr (by omega)]
      rfl
    refine ⟨?_, ?_⟩ <;>
      simp [Vim.MoveFindBackward.execActionWithCount,
        Vim.MoveTilBackward.execActionWithCount, Vim.tilBackwards, hbn]

/-- C9 (witness): searching an empty line for any character fails in
both directions, exercising both implications of the theorem. -/
theorem C9_witness :
    (Vim.occurrencesAfter [""] ⟨0, 0⟩ 'x').length < 1 ∧
    (Vim.occurrencesBefore [""] ⟨0, 0⟩ 'x').length < 1 ∧
    Vim.MoveFindForward.execActionWithCount []
        ⟨.Normal, ⟨0, 0, none, []⟩, ⟨0, 0⟩, ⟨0, 0⟩⟩ 'x' ⟨0, 0⟩ 1 =
      .mov { start := ⟨0, 0⟩, stop := ⟨0, 0⟩, failed := true } ∧
    Vim.MoveFindBackward.execActionWithCount []
        ⟨.Normal, ⟨0, 0, none, []⟩, ⟨0, 0⟩, ⟨0, 0⟩⟩ 'x' ⟨0, 0⟩ 1 =
      .mov { start := ⟨0, 0⟩, stop := ⟨0, 0⟩, failed := true } := by
  refine ⟨by decide, by decide, ?_, ?_⟩
  · exact ((C9_find_till_failure []
      ⟨.Normal, ⟨0, 0, none, []⟩, ⟨0, 0⟩, ⟨0, 0⟩⟩ 'x' ⟨0, 0⟩ 1).1 (by decide)).1
  · exact ((C9_find_till_failure []
      ⟨.Normal, ⟨0, 0, none, []⟩, ⟨0, 0⟩, ⟨0, 0⟩⟩ 'x' ⟨0, 0⟩ 1).2 (by decide)).1
